import Mathlib

/-
  Verification of the jibot-3 Slack bot against its specification.

  The TypeScript sources are shallowly embedded: file-backed stores
  (people.json, auth.json, the in-memory conversation history) become
  explicit state parameters threaded through the functions that the
  source mutates in place; JavaScript regular expressions used as
  anchored parsers become deterministic character-list parsers (each
  maximal-munch step is justified where the regex's backtracking can
  make no other choice); regular expressions used only as boolean
  `.test` probes become a small Brzozowski-derivative matcher applied
  to a literal translation of each pattern.
-/

/- ======================================================================
   Character classes (JavaScript semantics, code-point based)
   ====================================================================== -/

/-- JavaScript `\s`: whitespace, by code point (ASCII blanks, NBSP, the
Unicode space separators, line/paragraph separators, BOM). -/
def isJsWS (c : Char) : Bool :=
  c.toNat = 32 || c.toNat = 9 || c.toNat = 10 || c.toNat = 11 || c.toNat = 12 ||
  c.toNat = 13 || c.toNat = 160 || c.toNat = 5760 ||
  (8192 ≤ c.toNat && c.toNat ≤ 8202) ||
  c.toNat = 8232 || c.toNat = 8233 || c.toNat = 8239 || c.toNat = 8287 ||
  c.toNat = 12288 || c.toNat = 65279

/-- JavaScript line terminators: `\n`, `\r`, U+2028, U+2029 (what `.`
does not match in a regex without the `s` flag). -/
def isLineTerm (c : Char) : Bool :=
  c.toNat = 10 || c.toNat = 13 || c.toNat = 8232 || c.toNat = 8233

/-- ASCII decimal digit. -/
def isDigitCh (c : Char) : Bool := 48 ≤ c.toNat && c.toNat ≤ 57

/-- ASCII hex digit. -/
def isHexDigitCh (c : Char) : Bool :=
  (48 ≤ c.toNat && c.toNat ≤ 57) || (97 ≤ c.toNat && c.toNat ≤ 102) ||
  (65 ≤ c.toNat && c.toNat ≤ 70)

/-- The character class `[A-Z0-9]` under the `i` flag: ASCII letter or digit. -/
def isIdChar (c : Char) : Bool :=
  (65 ≤ c.toNat && c.toNat ≤ 90) || (97 ≤ c.toNat && c.toNat ≤ 122) ||
  (48 ≤ c.toNat && c.toNat ≤ 57)

/-- JavaScript `\w`: ASCII letter, digit or underscore. -/
def isWordChar (c : Char) : Bool := isIdChar c || c.toNat = 95

/-- ASCII case folding, modelling `String.prototype.toLowerCase` on the
ASCII inputs the bot handles. -/
def jsToLowerChar (c : Char) : Char :=
  if 65 ≤ c.toNat ∧ c.toNat ≤ 90 then Char.ofNat (c.toNat + 32) else c

/-- `text.toLowerCase()` (ASCII model). -/
def jsToLower (s : String) : String := String.mk (s.data.map jsToLowerChar)

/-- `text.trim()`: strip `\s` from both ends. -/
def jsTrimStr (s : String) : String :=
  String.mk (((s.data.dropWhile isJsWS).reverse.dropWhile isJsWS).reverse)

/- ======================================================================
   Association lists: the model of a JavaScript object used as a keyed
   store (insertion-ordered, unique keys).  `alSet` overwrites the
   binding in place or appends a fresh key at the end, `alDel` models
   `delete obj[k]`.
   ====================================================================== -/

def alFind? {β : Type} (l : List (String × β)) (k : String) : Option β :=
  (l.find? (fun e => e.1 == k)).map (fun e => e.2)

def alSet {β : Type} : List (String × β) → String → β → List (String × β)
  | [], k, v => [(k, v)]
  | e :: t, k, v => if e.1 == k then (k, v) :: t else e :: alSet t k v

def alDel {β : Type} (l : List (String × β)) (k : String) : List (String × β) :=
  l.filter (fun e => !(e.1 == k))

theorem alFind?_nil {β : Type} (k : String) : alFind? ([] : List (String × β)) k = none := rfl

theorem alFind?_cons {β : Type} (e : String × β) (t : List (String × β)) (k : String) :
    alFind? (e :: t) k = if e.1 = k then some e.2 else alFind? t k := by
  by_cases h : e.1 = k <;> simp [alFind?, List.find?_cons, h]

theorem alSet_cons {β : Type} (e : String × β) (t : List (String × β)) (k : String) (v : β) :
    alSet (e :: t) k v = if e.1 = k then (k, v) :: t else e :: alSet t k v := by
  by_cases h : e.1 = k <;> simp [alSet, h]

theorem alDel_cons {β : Type} (e : String × β) (t : List (String × β)) (k : String) :
    alDel (e :: t) k = if e.1 = k then alDel t k else e :: alDel t k := by
  by_cases h : e.1 = k <;> simp [alDel, List.filter_cons, h]

theorem alFind?_set_self {β : Type} (l : List (String × β)) (k : String) (v : β) :
    alFind? (alSet l k v) k = some v := by
  induction l with
  | nil => simp [alSet, alFind?_cons, alFind?_nil]
  | cons e t ih =>
    rw [alSet_cons]
    by_cases h : e.1 = k
    · simp [h, alFind?_cons]
    · simp [h, alFind?_cons, ih]

theorem alFind?_set_ne {β : Type} (l : List (String × β)) (k k' : String) (v : β)
    (h : k' ≠ k) : alFind? (alSet l k v) k' = alFind? l k' := by
  induction l with
  | nil => simp [alSet, alFind?_cons, alFind?_nil, Ne.symm h]
  | cons e t ih =>
    rw [alSet_cons]
    by_cases he : e.1 = k
    · rw [if_pos he, alFind?_cons, alFind?_cons, he]
      simp [Ne.symm h]
    · rw [if_neg he, alFind?_cons, alFind?_cons, ih]

theorem alFind?_del_self {β : Type} (l : List (String × β)) (k : String) :
    alFind? (alDel l k) k = none := by
  induction l with
  | nil => simp [alDel, alFind?_nil]
  | cons e t ih =>
    rw [alDel_cons]
    by_cases h : e.1 = k
    · simp [h, ih]
    · simp [h, alFind?_cons, ih]

theorem alFind?_del_ne {β : Type} (l : List (String × β)) (k k' : String)
    (h : k' ≠ k) : alFind? (alDel l k) k' = alFind? l k' := by
  induction l with
  | nil => simp [alDel, alFind?_nil]
  | cons e t ih =>
    rw [alDel_cons, alFind?_cons]
    by_cases he : e.1 = k
    · have he' : e.1 ≠ k' := by rw [he]; exact Ne.symm h
      simp [he, he', ih, Ne.symm h]
    · rw [if_neg he, alFind?_cons, ih]

theorem mem_alSet {β : Type} {l : List (String × β)} {k : String} {v : β}
    {e : String × β} (h : e ∈ alSet l k v) : e = (k, v) ∨ e ∈ l := by
  induction l with
  | nil => simpa [alSet] using h
  | cons f t ih =>
    by_cases hf : f.1 = k
    · simp only [alSet, beq_iff_eq, hf, if_true] at h
      rcases List.mem_cons.mp h with h | h
      · exact Or.inl h
      · exact Or.inr (List.mem_cons_of_mem _ h)
    · simp only [alSet, beq_iff_eq, hf, if_false] at h
      rcases List.mem_cons.mp h with h | h
      · exact Or.inr (h ▸ List.mem_cons_self _ _)
      · rcases ih h with h | h
        · exact Or.inl h
        · exact Or.inr (List.mem_cons_of_mem _ h)

theorem mem_alDel {β : Type} {l : List (String × β)} {k : String}
    {e : String × β} (h : e ∈ alDel l k) : e ∈ l ∧ e.1 ≠ k := by
  have h' := List.mem_filter.mp h
  refine ⟨h'.1, ?_⟩
  have := h'.2
  simp only [Bool.not_eq_true', beq_eq_false_iff_ne, ne_eq] at this
  exact this

theorem alFind?_some_mem {β : Type} {l : List (String × β)} {k : String} {v : β}
    (h : alFind? l k = some v) : (k, v) ∈ l := by
  unfold alFind? at h
  cases hf : l.find? (fun e => e.1 == k) with
  | none => rw [hf] at h; simp at h
  | some e =>
    rw [hf] at h
    simp only [Option.map_some'] at h
    have hmem := List.mem_of_find?_eq_some hf
    have hkey := List.find?_some hf
    simp only [beq_iff_eq] at hkey
    have : e = (k, v) := by
      cases e with
      | mk a b => simp only at hkey; simp only [Option.some.injEq] at h; rw [hkey, h]
    rwa [this] at hmem

theorem alFind?_eq_none_iff {β : Type} {l : List (String × β)} {k : String} :
    alFind? l k = none ↔ ∀ e ∈ l, e.1 ≠ k := by
  unfold alFind?
  rw [Option.map_eq_none']
  rw [List.find?_eq_none]
  simp

/- ======================================================================
   People store (people.ts, global variant): PersonFact / PersonRecord
   and the fact mutations.  loadPeople/savePeople become the explicit
   `PeopleStore` parameter and result.
   ====================================================================== -/

structure PersonFact where
  fact : String
  addedBy : String
  addedAt : String
deriving DecidableEq, Repr

structure PersonRecord where
  displayName : Option String := none
  slackName : Option String := none
  facts : List PersonFact
deriving DecidableEq, Repr

abbrev PeopleStore := List (String × PersonRecord)

/-- `getFacts`: `store[userId]?.facts || []`. -/
def getFacts (userId : String) (store : PeopleStore) : List PersonFact :=
  ((alFind? store userId).map (fun r => r.facts)).getD []

/-- `addFact`: create the record if missing, update the names when given,
push the new fact, save.  `addedAt` (`new Date().toISOString()`) is an
input here. -/
def addFact (userId fact addedBy : String) (displayName slackName : Option String)
    (addedAt : String) (store : PeopleStore) : PeopleStore :=
  let pr0 : PersonRecord := (alFind? store userId).getD { facts := [] }
  let pr1 := match displayName with
    | some d => { pr0 with displayName := some d }
    | none => pr0
  let pr2 := match slackName with
    | some sn => { pr1 with slackName := some sn }
    | none => pr1
  alSet store userId
    { pr2 with facts := pr2.facts ++ [{ fact := fact, addedBy := addedBy, addedAt := addedAt }] }

/-- `removeFact` (0-indexed): no-op returning false unless the record
exists and `facts[index]` is defined; deletes the whole record when the
last fact goes (the `// Clean up if no facts left` branch). -/
def removeFact (userId : String) (index : Int) (store : PeopleStore) : Bool × PeopleStore :=
  match alFind? store userId with
  | none => (false, store)
  | some pr =>
    if 0 ≤ index ∧ index.toNat < pr.facts.length then
      let newFacts := pr.facts.eraseIdx index.toNat
      if newFacts = [] then (true, alDel store userId)
      else (true, alSet store userId { pr with facts := newFacts })
    else (false, store)

/-- `removeAllFacts`: returns the removed count and deletes the record. -/
def removeAllFacts (userId : String) (store : PeopleStore) : Nat × PeopleStore :=
  match alFind? store userId with
  | none => (0, store)
  | some pr => (pr.facts.length, alDel store userId)

/-- The invariant of C5: no retained record has an empty facts list. -/
def storeWF (store : PeopleStore) : Prop :=
  ∀ e ∈ store, e.2.facts ≠ []

instance (store : PeopleStore) : Decidable (storeWF store) :=
  List.decidableBAll _ store

/- ======================================================================
   handleForget and its response strings (index.ts)
   ====================================================================== -/

def msgNothing (userId : String) : String :=
  "🤷 I don't know anything about <@" ++ userId ++ "> to forget."

def msgList (userId : String) (facts : List PersonFact) : String :=
  let factsList := String.intercalate "\n"
    (facts.enum.map (fun e => toString (e.1 + 1) ++ ". " ++ e.2.fact))
  "🤖 Here's what I know about <@" ++ userId ++ ">:\n" ++ factsList ++
    "\n\n_Say `jibot forget <@" ++ userId ++ "> [number]` or `jibot forget <@" ++
    userId ++ "> all`_"

def msgForgotAll (userId : String) (count : Nat) : String :=
  "🗑️ I've forgotten everything about <@" ++ userId ++ "> (" ++ toString count ++
    " fact" ++ (if count = 1 then "" else "s") ++ ")."

def msgNoFact (userId : String) (index : Int) (len : Nat) : String :=
  "🤷 I don't have a fact #" ++ toString (index + 1) ++ " about <@" ++ userId ++
    ">. I only know " ++ toString len ++ " thing" ++ (if len = 1 then "" else "s") ++ "."

def msgForgot (userId : String) (factText : String) : String :=
  "🗑️ I've forgotten that <@" ++ userId ++ "> is " ++ factText ++ "."

/-- `handleForget(userId, index)`: `index = none` is the list mode,
`some (-1)` the clear-all sentinel, other values a 0-based position. -/
def handleForget (userId : String) (index : Option Int) (store : PeopleStore) :
    String × PeopleStore :=
  let facts := getFacts userId store
  match index with
  | none =>
    if facts.length = 0 then (msgNothing userId, store)
    else (msgList userId facts, store)
  | some i =>
    if i = -1 then
      let r := removeAllFacts userId store
      if r.1 = 0 then (msgNothing userId, r.2)
      else (msgForgotAll userId r.1, r.2)
    else if i < 0 ∨ (facts.length : Int) ≤ i then
      (msgNoFact userId i facts.length, store)
    else
      let factText := ((facts.get? i.toNat).map (fun f => f.fact)).getD ""
      let r := removeFact userId i store
      (msgForgot userId factText, r.2)

/- ======================================================================
   The command parsers of index.ts.  Each anchored JavaScript regex is
   embedded as a deterministic parser over the character list; at every
   `+` repetition the following literal character is outside the repeated
   class, so maximal munch coincides with the regex's backtracking
   search, except for the final `\s+(.+)$` groups, where `wsDotCapture`
   reproduces the greedy backtracking explicitly.
   ====================================================================== -/

/-- Case-insensitive character comparison (the regexes carry the `i` flag). -/
def ciEq (p c : Char) : Bool := jsToLowerChar p == jsToLowerChar c

/-- Consume the literal `pat` case-insensitively. -/
def stripLitCI (pat s : List Char) : Option (List Char) :=
  match pat with
  | [] => some s
  | p :: ps =>
    match s with
    | [] => none
    | c :: cs => if ciEq p c then stripLitCI ps cs else none

/-- Consume `\s+` (at least one, then maximal: always followed by a
non-whitespace literal here). -/
def stripWs1 : List Char → Option (List Char)
  | [] => none
  | c :: cs => if isJsWS c then some (cs.dropWhile isJsWS) else none

/-- Consume a nonempty maximal run of class characters (followed by a
literal outside the class). -/
def takeClass1 (p : Char → Bool) (s : List Char) : Option (List Char × List Char) :=
  let t := s.takeWhile p
  if t = [] then none else some (t, s.dropWhile p)

/-- The trailing `\s+(.+)$` of the learn/forget regexes: greedy `\s+`
then a nonempty capture of non-line-terminators reaching the end of the
string; when the whole rest is whitespace the engine backtracks one
character into the capture. -/
def wsDotCapture (rest : List Char) : Option (List Char) :=
  let w := rest.takeWhile isJsWS
  if w.length = 0 then none
  else
    let tl := rest.drop w.length
    if tl ≠ [] then
      if tl.all (fun c => !(isLineTerm c)) then some tl else none
    else
      match rest.getLast? with
      | some c => if 2 ≤ w.length ∧ isLineTerm c = false then some [c] else none
      | none => none

/-- JavaScript `parseInt(arg)` with no radix: skip whitespace, one
optional sign, `0x`/`0X` selects hex, otherwise the maximal decimal
digit prefix; `none` is `NaN`. -/
def digitsVal (ds : List Char) : Nat := ds.foldl (fun a c => 10 * a + (c.toNat - 48)) 0

def hexDigitVal (c : Char) : Nat :=
  if c.toNat ≤ 57 then c.toNat - 48
  else if c.toNat ≤ 70 then c.toNat - 55
  else c.toNat - 87

def hexVal (ds : List Char) : Nat := ds.foldl (fun a c => 16 * a + hexDigitVal c) 0

def jsParseInt (s : String) : Option Int :=
  let cs := s.data.dropWhile isJsWS
  let sign : Int := if cs.head? = some '-' then -1 else 1
  let cs2 := if cs.head? = some '-' ∨ cs.head? = some '+' then cs.tail else cs
  if cs2.head? = some '0' ∧ (cs2.tail.head? = some 'x' ∨ cs2.tail.head? = some 'X') then
    let h := cs2.tail.tail.takeWhile isHexDigitCh
    if h = [] then none else some (sign * (hexVal h : Int))
  else
    let d := cs2.takeWhile isDigitCh
    if d = [] then none else some (sign * (digitsVal d : Int))

structure ForgetCmd where
  userId : String
  index : Option Int
deriving DecidableEq, Repr

structure LearnCmd where
  userId : String
  fact : String
deriving DecidableEq, Repr

/-- The argument branch of `parseForgetCommand` once `match[2]` has been
captured (`arg = match[2]?.trim().toLowerCase()`; empty is falsy). -/
def forgetIndexOfArg (uid : String) (arg : String) : ForgetCmd :=
  if arg = "" then { userId := uid, index := none }
  else if arg = "all" ∨ arg = "everything" then { userId := uid, index := some (-1) }
  else
    match jsParseInt arg with
    | some n => if 1 ≤ n then { userId := uid, index := some (n - 1) }
                else { userId := uid, index := none }
    | none => { userId := uid, index := none }

/-- `parseForgetCommand`: `/^jibot\s+forget\s+<@([A-Z0-9]+)>(?:\s+(.+))?$/i`
followed by the `all`/`everything`/`parseInt` argument analysis. -/
def parseForgetChars (cs : List Char) : Option ForgetCmd := do
  let r1 ← stripLitCI "jibot".data cs
  let r2 ← stripWs1 r1
  let r3 ← stripLitCI "forget".data r2
  let r4 ← stripWs1 r3
  let r5 ← stripLitCI "<@".data r4
  let (uid, r6) ← takeClass1 isIdChar r5
  match r6 with
  | '>' :: rest =>
    if rest = [] then some { userId := String.mk uid, index := none }
    else do
      let cap ← wsDotCapture rest
      pure (forgetIndexOfArg (String.mk uid) (jsToLower (jsTrimStr (String.mk cap))))
  | _ => none

def parseForgetCommand (text : String) : Option ForgetCmd :=
  parseForgetChars text.data

/-- `parseLearnCommand`: `/^jibot\s+<@([A-Z0-9]+)>\s+is\s+(.+)$/i`. -/
def parseLearnChars (cs : List Char) : Option LearnCmd := do
  let r1 ← stripLitCI "jibot".data cs
  let r2 ← stripWs1 r1
  let r3 ← stripLitCI "<@".data r2
  let (uid, r4) ← takeClass1 isIdChar r3
  match r4 with
  | '>' :: rest => do
    let r5 ← stripWs1 rest
    let r6 ← stripLitCI "is".data r5
    let cap ← wsDotCapture r6
    pure { userId := String.mk uid, fact := jsTrimStr (String.mk cap) }
  | _ => none

def parseLearnCommand (text : String) : Option LearnCmd :=
  parseLearnChars text.data

/-- The forget branch of the message handler: parse, then run
`handleForget` against the store. -/
def runForget (text : String) (store : PeopleStore) : Option (String × PeopleStore) :=
  (parseForgetCommand text).map (fun c => handleForget c.userId c.index store)

/- ======================================================================
   Workspace-local people store (people-workspace.ts): the same
   removeFact logic keyed by team, for the second source of C5.
   ====================================================================== -/

abbrev TeamStores := List (String × PeopleStore)

/-- part_002 `removeFact(userId, teamId, index)`: `loadPeople(teamId)`
defaults to an empty store; nothing is saved on the failure paths. -/
def removeFactLocal (userId teamId : String) (index : Int) (stores : TeamStores) :
    Bool × TeamStores :=
  let store := (alFind? stores teamId).getD []
  match alFind? store userId with
  | none => (false, stores)
  | some pr =>
    if 0 ≤ index ∧ index.toNat < pr.facts.length then
      let newFacts := pr.facts.eraseIdx index.toNat
      let store' := if newFacts = [] then alDel store userId
                    else alSet store userId { pr with facts := newFacts }
      (true, alSet stores teamId store')
    else (false, stores)

def teamsWF (stores : TeamStores) : Prop := ∀ e ∈ stores, storeWF e.2

/- ======================================================================
   Store well-formedness lemmas
   ====================================================================== -/

theorem storeWF_alSet {store : PeopleStore} {u : String} {r : PersonRecord}
    (h : storeWF store) (hr : r.facts ≠ []) : storeWF (alSet store u r) := by
  intro e he
  rcases mem_alSet he with rfl | he'
  · exact hr
  · exact h e he'

theorem storeWF_alDel {store : PeopleStore} {u : String}
    (h : storeWF store) : storeWF (alDel store u) :=
  fun e he => h e (mem_alDel he).1

theorem storeWF_removeFact {store : PeopleStore} (u : String) (i : Int)
    (h : storeWF store) : storeWF (removeFact u i store).2 := by
  unfold removeFact
  cases hf : alFind? store u with
  | none => exact h
  | some pr =>
    by_cases hb : 0 ≤ i ∧ i.toNat < pr.facts.length
    · simp only [hb, if_true]
      by_cases hnil : pr.facts.eraseIdx i.toNat = []
      · simpa [hnil] using storeWF_alDel h
      · simpa [hnil] using storeWF_alSet h hnil
    · simp only [hb, if_false]
      exact h

theorem alFind?_none_of_getFacts_nil {store : PeopleStore} {u : String}
    (hwf : storeWF store) (he : getFacts u store = []) : alFind? store u = none := by
  cases hf : alFind? store u with
  | none => rfl
  | some pr =>
    exfalso
    have : pr.facts = [] := by simpa [getFacts, hf] using he
    exact hwf (u, pr) (alFind?_some_mem hf) this

/-- C5.  The people store never retains a record with an empty facts
list: `addFact`, `removeFact` (both the global and the workspace-local
variant) and `removeAllFacts` all preserve the invariant, and removing
the last fact of a person deletes the record, so the subsequent lookup
finds nothing. -/
theorem c5_empty_records_pruned (store : PeopleStore) (h : storeWF store) :
    (∀ u f ab dn sn t, storeWF (addFact u f ab dn sn t store)) ∧
    (∀ u i, storeWF (removeFact u i store).2) ∧
    (∀ u, storeWF (removeAllFacts u store).2) ∧
    (∀ u ti i ts, teamsWF ts → teamsWF (removeFactLocal u ti i ts).2) ∧
    (∀ u pf, getFacts u store = [pf] → alFind? (removeFact u 0 store).2 u = none) := by
  refine ⟨?_, ?_, ?_, ?_, ?_⟩
  · intro u f ab dn sn t
    apply storeWF_alSet h
    simp [addFact]
  · intro u i
    exact storeWF_removeFact u i h
  · intro u
    unfold removeAllFacts
    cases hf : alFind? store u with
    | none => exact h
    | some pr => exact storeWF_alDel h
  · intro u ti i ts hts
    have hsw : storeWF ((alFind? ts ti).getD []) := by
      cases hts' : alFind? ts ti with
      | none => intro e he; simp at he
      | some st => exact hts (ti, st) (alFind?_some_mem hts')
    cases hf : alFind? ((alFind? ts ti).getD []) u with
    | none => simp only [removeFactLocal, hf]; exact hts
    | some pr =>
      simp only [removeFactLocal, hf]
      by_cases hb : 0 ≤ i ∧ i.toNat < pr.facts.length
      · simp only [hb, if_true]
        intro e he
        rcases mem_alSet he with rfl | he'
        · by_cases hnil : pr.facts.eraseIdx i.toNat = []
          · simpa [hnil] using storeWF_alDel hsw
          · simpa [hnil] using storeWF_alSet hsw hnil
        · exact hts e he'
      · simp only [hb, if_false]
        exact hts
  · intro u pf hone
    cases hf : alFind? store u with
    | none => simp [getFacts, hf] at hone
    | some pr =>
      have hfacts : pr.facts = [pf] := by simpa [getFacts, hf] using hone
      simp only [removeFact, hf, hfacts]
      norm_num [List.eraseIdx]
      exact alFind?_del_self store u

/-- C5 witness: a concrete one-fact store. -/
theorem c5_empty_records_pruned_witness :
    storeWF [("U1", { facts := [⟨"cool", "A", "t"⟩] })] ∧
    alFind? (removeFact "U1" 0 [("U1", { facts := [⟨"cool", "A", "t"⟩] })]).2 "U1" = none := by
  refine ⟨by decide, ?_⟩
  exact (c5_empty_records_pruned [("U1", { facts := [⟨"cool", "A", "t"⟩] })] (by decide)).2.2.2.2
    "U1" ⟨"cool", "A", "t"⟩ (by decide)

/-- C3.  When a subject has no facts, `handleForget` leaves the store
untouched for every index argument and never fails; the reply is the
"nothing to forget" message, or the "no fact #n, I only know 0 things"
variant when a numeric index was supplied. -/
theorem c3_forget_empty_noop (u : String) (idx : Option Int) (store : PeopleStore)
    (hwf : storeWF store) (he : getFacts u store = []) :
    (handleForget u idx store).2 = store ∧
    ((handleForget u idx store).1 = msgNothing u ∨
     ∃ i, idx = some i ∧ (handleForget u idx store).1 = msgNoFact u i 0) := by
  have hf : alFind? store u = none := alFind?_none_of_getFacts_nil hwf he
  cases idx with
  | none =>
    simp [handleForget, he]
  | some i =>
    by_cases hm : i = -1
    · subst hm
      simp [handleForget, he, removeAllFacts, hf]
    · have hr : i < 0 ∨ (0 : Int) ≤ i := by omega
      constructor
      · simp [handleForget, hm, he, hr]
      · right
        exact ⟨i, rfl, by simp [handleForget, hm, he, hr]⟩

/-- C3 witness at the empty store with index argument 3 (0-based 2). -/
theorem c3_forget_empty_noop_witness :
    (handleForget "U9" (some 2) ([] : PeopleStore)).2 = [] ∧
    (handleForget "U9" (some 2) ([] : PeopleStore)).1 = msgNoFact "U9" 2 0 := by
  have h := c3_forget_empty_noop "U9" (some 2) [] (by decide) (by decide)
  refine ⟨h.1, ?_⟩
  rcases h.2 with h2 | ⟨i, hi, h2⟩
  · exact absurd h2 (by decide)
  · cases hi; exact h2

/-- C7.  An input accepted by the forget parser is never accepted by the
learn parser: after `jibot` and the whitespace run, the forget regex
requires an `f` where the learn regex requires `<`. -/
theorem c7_forget_never_learn (s : String)
    (h : (parseForgetCommand s).isSome = true) : parseLearnCommand s = none := by
  unfold parseForgetCommand parseForgetChars at h
  unfold parseLearnCommand parseLearnChars
  cases h1 : stripLitCI "jibot".data s.data with
  | none => rw [h1] at h; simp at h
  | some r1 =>
    rw [h1] at h
    simp only [Option.bind_eq_bind, Option.some_bind] at h ⊢
    cases h2 : stripWs1 r1 with
    | none => rw [h2] at h; simp at h
    | some r2 =>
      rw [h2] at h
      simp only [Option.some_bind] at h ⊢
      cases h3 : stripLitCI "forget".data r2 with
      | none => rw [h3] at h; simp at h
      | some r3 =>
        have hne : stripLitCI "<@".data r2 = none := by
          cases r2 with
          | nil => simp [stripLitCI] at h3
          | cons c cs =>
            have hforget : "forget".data = 'f' :: "orget".data := rfl
            have hcons : ∀ (p : Char) (ps : List Char) (d : Char) (ds : List Char),
                stripLitCI (p :: ps) (d :: ds) =
                  if ciEq p d then stripLitCI ps ds else none := fun _ _ _ _ => rfl
            rw [hforget, hcons] at h3
            by_cases hce : ciEq 'f' c = true
            · have hlc : jsToLowerChar c = 'f' := by
                have := hce
                simp only [ciEq, beq_iff_eq] at this
                exact this.symm
              have : ciEq '<' c = false := by
                simp only [ciEq, beq_eq_false_iff_ne, ne_eq, hlc]
                decide
              have hlt : "<@".data = '<' :: "@".data := rfl
              rw [hlt, hcons]
              simp [this]
            · simp only [Bool.not_eq_true] at hce
              rw [hce] at h3
              simp at h3
        rw [hne]
        rfl

/-- C7 witness: the claim's adversarial input, accepted by the forget
parser and rejected by the learn parser. -/
theorem c7_forget_never_learn_witness :
    (parseForgetCommand "jibot forget <@U123> is broken").isSome = true ∧
    parseLearnCommand "jibot forget <@U123> is broken" = none :=
  ⟨by decide, c7_forget_never_learn "jibot forget <@U123> is broken" (by decide)⟩

theorem alDel_eq_of_none {β : Type} {l : List (String × β)} {k : String}
    (h : alFind? l k = none) : alDel l k = l := by
  induction l with
  | nil => rfl
  | cons e t ih =>
    rw [alFind?_cons] at h
    by_cases he : e.1 = k
    · rw [if_pos he] at h; simp at h
    · rw [if_neg he] at h
      rw [alDel_cons, if_neg he, ih h]

/-- C1 counterexample.  The claim says any token that is not `all`,
`everything` or a numeric index behaves as the no-argument list mode and
deletes nothing, but `parseInt("2xyz") = 2`, so
`jibot forget <@U1> 2xyz` deletes fact #2 and answers with the removed
fact's text. -/
theorem c1_forget_state_machine_counterexample :
    runForget "jibot forget <@U1> 2xyz"
        [("U1", { facts := [⟨"f1", "A", "t"⟩, ⟨"f2", "A", "t"⟩, ⟨"f3", "A", "t"⟩] })] =
      some (msgForgot "U1" "f2",
        [("U1", { facts := [⟨"f1", "A", "t"⟩, ⟨"f3", "A", "t"⟩] })]) := by
  decide

/-- C1 (amended).  The `handleForget` state machine, with the subject's
fact count written `k`: list mode returns the numbered list (the
nothing-to-forget message when `k = 0`) and never changes the store; the
clear-all sentinel deletes the subject's record and reports the count
when `k ≥ 1`; an in-range 0-based index deletes exactly that fact,
leaves every other subject untouched and reports the removed fact's
text; an out-of-range index changes nothing and reports that only `k`
facts exist.  (Which argument token produces which index is C4's
theorem; tokens with a leading digit reach the numeric mode via
`parseInt`.) -/
theorem c1_forget_state_machine (u : String) (store : PeopleStore) :
    ((handleForget u none store).2 = store ∧
      (1 ≤ (getFacts u store).length →
        (handleForget u none store).1 = msgList u (getFacts u store)) ∧
      ((getFacts u store).length = 0 → (handleForget u none store).1 = msgNothing u)) ∧
    ((handleForget u (some (-1)) store).2 = alDel store u ∧
      (1 ≤ (getFacts u store).length →
        (handleForget u (some (-1)) store).1 = msgForgotAll u (getFacts u store).length)) ∧
    (∀ i : Int, 0 ≤ i → i.toNat < (getFacts u store).length →
      getFacts u (handleForget u (some i) store).2 = (getFacts u store).eraseIdx i.toNat ∧
      (∀ v, v ≠ u → alFind? (handleForget u (some i) store).2 v = alFind? store v) ∧
      (∀ pf, (getFacts u store).get? i.toNat = some pf →
        (handleForget u (some i) store).1 = msgForgot u pf.fact)) ∧
    (∀ i : Int, 0 ≤ i → ((getFacts u store).length : Int) ≤ i →
      handleForget u (some i) store = (msgNoFact u i (getFacts u store).length, store)) := by
  refine ⟨⟨?_, ?_, ?_⟩, ⟨?_, ?_⟩, ?_, ?_⟩
  · by_cases h : (getFacts u store).length = 0 <;> simp [handleForget, h]
  · intro hk
    have h : ¬(getFacts u store).length = 0 := by omega
    simp [handleForget, h]
  · intro hk
    simp [handleForget, hk]
  · cases hf : alFind? store u with
    | none =>
      simp [handleForget, removeAllFacts, hf, alDel_eq_of_none hf]
    | some pr =>
      by_cases hz : pr.facts.length = 0 <;> simp [handleForget, removeAllFacts, hf, hz]
  · intro hk
    cases hf : alFind? store u with
    | none => simp [getFacts, hf] at hk
    | some pr =>
      have hz : ¬pr.facts.length = 0 := by
        simp only [getFacts, hf, Option.map_some', Option.getD_some] at hk
        omega
      simp [handleForget, removeAllFacts, hf, hz, getFacts]
  · intro i h0 hlt
    have hfacts : getFacts u store = ((alFind? store u).map (fun r => r.facts)).getD [] := rfl
    cases hf : alFind? store u with
    | none =>
      rw [hfacts, hf] at hlt
      simp at hlt
    | some pr =>
      have hfu : getFacts u store = pr.facts := by rw [hfacts, hf]; rfl
      have hne : ¬i = -1 := by omega
      have hcond : ¬(i < 0 ∨ ((getFacts u store).length : Int) ≤ i) := by
        rw [hfu] at hlt ⊢
        push_neg
        constructor
        · omega
        · omega
      have hb : 0 ≤ i ∧ i.toNat < pr.facts.length := ⟨h0, by rwa [hfu] at hlt⟩
      refine ⟨?_, ?_, ?_⟩
      · rw [hfu]
        simp only [handleForget, hne, if_false, hcond, removeFact, hf, hb, if_true]
        by_cases hnil : pr.facts.eraseIdx i.toNat = []
        · rw [if_pos hnil, hnil]
          simp [getFacts, alFind?_del_self]
        · rw [if_neg hnil]
          simp [getFacts, alFind?_set_self]
      · intro v hv
        simp only [handleForget, hne, if_false, hcond, removeFact, hf, hb, if_true]
        by_cases hnil : pr.facts.eraseIdx i.toNat = []
        · rw [if_pos hnil]
          simp [alFind?_del_ne _ _ _ hv]
        · rw [if_neg hnil]
          simp [alFind?_set_ne _ _ _ _ hv]
      · intro pf hpf
        rw [List.get?_eq_getElem?] at hpf
        simp only [handleForget, hne, if_false, hcond, if_true]
        simp [hpf]
  · intro i h0 hge
    have hne : ¬i = -1 := by omega
    have hcond : i < 0 ∨ ((getFacts u store).length : Int) ≤ i := Or.inr hge
    simp [handleForget, hne, hcond]

/-- C1 witness: the amended state machine evaluated on a two-fact store,
deleting fact #2 (0-based index 1). -/
theorem c1_forget_state_machine_witness :
    getFacts "U1" (handleForget "U1" (some 1)
        [("U1", { facts := [⟨"f1", "A", "t"⟩, ⟨"f2", "A", "t"⟩] })]).2 = [⟨"f1", "A", "t"⟩] ∧
    (handleForget "U1" (some 1)
        [("U1", { facts := [⟨"f1", "A", "t"⟩, ⟨"f2", "A", "t"⟩] })]).1 = msgForgot "U1" "f2" := by
  have h := (c1_forget_state_machine "U1"
    [("U1", { facts := [⟨"f1", "A", "t"⟩, ⟨"f2", "A", "t"⟩] })]).2.2.1 1 (by decide) (by decide)
  exact ⟨h.1, h.2.2 ⟨"f2", "A", "t"⟩ (by decide)⟩

/- ======================================================================
   Character and list lemmas for the parser proofs
   ====================================================================== -/

theorem toNat_jsToLowerChar (c : Char) :
    (jsToLowerChar c).toNat = if 65 ≤ c.toNat ∧ c.toNat ≤ 90 then c.toNat + 32 else c.toNat := by
  unfold jsToLowerChar
  split
  · next h =>
    unfold Char.ofNat
    split
    · rfl
    · next h2 => exact absurd (Or.inl (by omega)) h2
  · rfl

theorem char_eq_iff_toNat (c d : Char) : c = d ↔ c.toNat = d.toNat := by
  constructor
  · intro h; rw [h]
  · intro h
    apply Char.ext
    exact UInt32.toNat.inj h

theorem ciEq_self (c : Char) : ciEq c c = true := by simp [ciEq]

theorem stripLitCI_refl (l cs : List Char) : stripLitCI l (l ++ cs) = some cs := by
  induction l with
  | nil => rfl
  | cons c t ih => simpa [stripLitCI, ciEq_self] using ih

theorem stripLitCI_nil_pat (s : List Char) : stripLitCI [] s = some s := rfl

theorem takeWhile_append_of_all (p : Char → Bool) (l : List Char) (c : Char) (r : List Char)
    (hl : ∀ x ∈ l, p x = true) (hc : p c = false) :
    (l ++ c :: r).takeWhile p = l ∧ (l ++ c :: r).dropWhile p = c :: r := by
  induction l with
  | nil => simp [List.takeWhile_cons, List.dropWhile_cons, hc]
  | cons x t ih =>
    have hx : p x = true := hl x (List.mem_cons_self _ _)
    have ih' := ih (fun y hy => hl y (List.mem_cons_of_mem _ hy))
    simp [List.takeWhile_cons, List.dropWhile_cons, hx, ih'.1, ih'.2]

theorem dropWhile_eq_self_of_all (p : Char → Bool) (l : List Char)
    (h : ∀ x ∈ l, p x = false) : l.dropWhile p = l := by
  cases l with
  | nil => rfl
  | cons x t => simp [List.dropWhile_cons, h x (List.mem_cons_self _ _)]

theorem jsTrimStr_eq_self (s : String) (h : ∀ c ∈ s.data, isJsWS c = false) :
    jsTrimStr s = s := by
  unfold jsTrimStr
  rw [dropWhile_eq_self_of_all _ _ h]
  rw [dropWhile_eq_self_of_all _ _ (fun c hc => h c (List.mem_reverse.mp hc))]
  rw [List.reverse_reverse]

theorem jsToLowerChar_of_digit {c : Char} (h : isDigitCh c = true) : jsToLowerChar c = c := by
  rw [char_eq_iff_toNat, toNat_jsToLowerChar]
  simp only [isDigitCh, Bool.and_eq_true, decide_eq_true_eq] at h
  rw [if_neg (by omega)]

theorem jsToLower_eq_self_of_digits (s : String) (h : ∀ c ∈ s.data, isDigitCh c = true) :
    jsToLower s = s := by
  unfold jsToLower
  have : ∀ l : List Char, (∀ c ∈ l, isDigitCh c = true) → l.map jsToLowerChar = l := by
    intro l hl
    induction l with
    | nil => rfl
    | cons x t ih =>
      simp [jsToLowerChar_of_digit (hl x (List.mem_cons_self _ _)),
        ih (fun y hy => hl y (List.mem_cons_of_mem _ hy))]
  rw [this s.data h]

/- Transfer of character classes through ASCII lowering. -/

theorem isDigitCh_jsToLowerChar {c : Char} (h : isDigitCh c = false) :
    isDigitCh (jsToLowerChar c) = false := by
  simp only [isDigitCh, Bool.and_eq_true, decide_eq_true_eq, Bool.and_eq_false_iff,
    decide_eq_false_iff_not, not_le] at h ⊢
  rw [toNat_jsToLowerChar]
  split <;> omega

theorem isJsWS_jsToLowerChar {c : Char} (h : isJsWS c = false) :
    isJsWS (jsToLowerChar c) = false := by
  simp only [isJsWS, Bool.or_eq_false_iff, Bool.and_eq_false_iff,
    decide_eq_false_iff_not, not_le] at h ⊢
  rw [toNat_jsToLowerChar]
  split <;> omega

theorem jsToLowerChar_ne_of_low {c d : Char} (hd : d.toNat < 65) (h : c ≠ d) :
    jsToLowerChar c ≠ d := by
  intro he
  apply h
  rw [char_eq_iff_toNat] at he ⊢
  rw [toNat_jsToLowerChar] at he
  revert he
  split <;> omega

theorem stripWs1_single {c : Char} (cs : List Char) (h : isJsWS c = false) :
    stripWs1 (' ' :: c :: cs) = some (c :: cs) := by
  have e : stripWs1 (' ' :: c :: cs) =
      if isJsWS ' ' = true then some ((c :: cs).dropWhile isJsWS) else none := rfl
  rw [e, if_pos (by decide), List.dropWhile_cons, if_neg (by simp [h])]

/-- Evaluating `parseForgetCommand` on the shape
`jibot forget <@U> ARG` for a nonempty alphanumeric `U` and a nonempty
argument token with no whitespace and no line terminators: the match
succeeds, captures `U`, and hands the trimmed lowercased token to the
argument analysis. -/
theorem parseForget_shape (u arg : String) (hu0 : u.data ≠ [])
    (hu : ∀ c ∈ u.data, isIdChar c = true) (ha0 : arg.data ≠ [])
    (haw : ∀ c ∈ arg.data, isJsWS c = false)
    (hal : ∀ c ∈ arg.data, isLineTerm c = false) :
    parseForgetCommand ("jibot forget <@" ++ u ++ "> " ++ arg) =
      some (forgetIndexOfArg u (jsToLower arg)) := by
  obtain ⟨a0, as, hargs⟩ : ∃ a0 as, arg.data = a0 :: as := by
    cases h : arg.data with
    | nil => exact absurd h ha0
    | cons x xs => exact ⟨x, xs, rfl⟩
  have hdata : ("jibot forget <@" ++ u ++ "> " ++ arg).data =
      "jibot".data ++ (' ' :: ("forget".data ++ (' ' ::
        ("<@".data ++ (u.data ++ ('>' :: ' ' :: arg.data)))))) := by
    simp [String.data_append]
  have htk := takeWhile_append_of_all isIdChar u.data '>' (' ' :: arg.data) hu (by decide)
  have h1 : stripLitCI "jibot".data (("jibot forget <@" ++ u ++ "> " ++ arg).data) =
      some (' ' :: ("forget".data ++ (' ' ::
        ("<@".data ++ (u.data ++ ('>' :: ' ' :: arg.data)))))) := by
    rw [hdata]; exact stripLitCI_refl _ _
  have e2 : "forget".data ++ (' ' :: ("<@".data ++ (u.data ++ ('>' :: ' ' :: arg.data)))) =
      'f' :: ("orget".data ++ (' ' :: ("<@".data ++ (u.data ++ ('>' :: ' ' :: arg.data))))) := rfl
  have h2 : stripWs1 (' ' :: ("forget".data ++ (' ' ::
        ("<@".data ++ (u.data ++ ('>' :: ' ' :: arg.data)))))) =
      some ("forget".data ++ (' ' :: ("<@".data ++ (u.data ++ ('>' :: ' ' :: arg.data))))) := by
    rw [e2]
    exact stripWs1_single _ (by decide)
  have h3 : stripLitCI "forget".data ("forget".data ++ (' ' ::
        ("<@".data ++ (u.data ++ ('>' :: ' ' :: arg.data))))) =
      some (' ' :: ("<@".data ++ (u.data ++ ('>' :: ' ' :: arg.data)))) :=
    stripLitCI_refl _ _
  have e4 : "<@".data ++ (u.data ++ ('>' :: ' ' :: arg.data)) =
      '<' :: ("@".data ++ (u.data ++ ('>' :: ' ' :: arg.data))) := rfl
  have h4 : stripWs1 (' ' :: ("<@".data ++ (u.data ++ ('>' :: ' ' :: arg.data)))) =
      some ("<@".data ++ (u.data ++ ('>' :: ' ' :: arg.data))) := by
    rw [e4]
    exact stripWs1_single _ (by decide)
  have h5 : stripLitCI "<@".data ("<@".data ++ (u.data ++ ('>' :: ' ' :: arg.data))) =
      some (u.data ++ ('>' :: ' ' :: arg.data)) :=
    stripLitCI_refl _ _
  have h6 : takeClass1 isIdChar (u.data ++ ('>' :: ' ' :: arg.data)) =
      some (u.data, '>' :: ' ' :: arg.data) := by
    unfold takeClass1
    rw [htk.1, htk.2, if_neg hu0]
  have h7 : wsDotCapture (' ' :: arg.data) = some arg.data := by
    unfold wsDotCapture
    have hw : (' ' :: arg.data).takeWhile isJsWS = [' '] := by
      rw [List.takeWhile_cons, if_pos (by decide), hargs, List.takeWhile_cons,
        if_neg (by simp [haw a0 (by rw [hargs]; exact List.mem_cons_self _ _)])]
    rw [hw]
    simp only [List.length_cons, List.length_nil]
    rw [if_neg (by omega)]
    have hd : (' ' :: arg.data).drop 1 = arg.data := rfl
    rw [hd]
    rw [if_pos (by simp [hargs])]
    rw [if_pos ?hall]
    case hall =>
      rw [List.all_eq_true]
      intro c hc
      simp [hal c hc]
  unfold parseForgetCommand parseForgetChars
  rw [h1]
  simp only [Option.bind_eq_bind, Option.some_bind]
  rw [h2]
  simp only [Option.some_bind]
  rw [h3]
  simp only [Option.some_bind]
  rw [h4]
  simp only [Option.some_bind]
  rw [h5]
  simp only [Option.some_bind]
  rw [h6]
  simp only [Option.some_bind]
  rw [if_neg (by simp)]
  rw [h7]
  simp only [Option.some_bind]
  have hmku : String.mk u.data = u := rfl
  have hmka : String.mk arg.data = arg := rfl
  rw [hmku, hmka, jsTrimStr_eq_self arg haw]
  rfl

theorem takeWhile_eq_self_of_all (p : Char → Bool) (l : List Char)
    (h : ∀ x ∈ l, p x = true) : l.takeWhile p = l := by
  induction l with
  | nil => rfl
  | cons x t ih =>
    rw [List.takeWhile_cons, if_pos (h x (List.mem_cons_self _ _))]
    rw [ih (fun y hy => h y (List.mem_cons_of_mem _ hy))]

theorem isJsWS_of_digit {c : Char} (h : isDigitCh c = true) : isJsWS c = false := by
  simp only [isDigitCh, Bool.and_eq_true, decide_eq_true_eq] at h
  simp only [isJsWS, Bool.or_eq_false_iff, Bool.and_eq_false_iff,
    decide_eq_false_iff_not, not_le]
  omega

theorem char_ne_of_toNat_ne {c d : Char} (h : c.toNat ≠ d.toNat) : c ≠ d := by
  intro he
  exact h (by rw [he])

/-- JavaScript `parseInt` on an all-digit token: the decimal value. -/
theorem jsParseInt_digits (s : String) (h0 : s.data ≠ [])
    (h : ∀ c ∈ s.data, isDigitCh c = true) :
    jsParseInt s = some ((digitsVal s.data : Nat) : Int) := by
  obtain ⟨c0, t, he⟩ : ∃ c0 t, s.data = c0 :: t := by
    cases hd : s.data with
    | nil => exact absurd hd h0
    | cons x xs => exact ⟨x, xs, rfl⟩
  have hc0n : 48 ≤ c0.toNat ∧ c0.toNat ≤ 57 := by
    simpa [isDigitCh] using h c0 (by rw [he]; exact List.mem_cons_self _ _)
  have hdw : s.data.dropWhile isJsWS = s.data :=
    dropWhile_eq_self_of_all _ _ (fun c hc => isJsWS_of_digit (h c hc))
  have htw : s.data.takeWhile isDigitCh = s.data := takeWhile_eq_self_of_all _ _ h
  have hm : ¬(c0 = '-') := fun hx => absurd hc0n (by rw [hx]; decide)
  have hp : ¬(c0 = '+') := fun hx => absurd hc0n (by rw [hx]; decide)
  have htx : ¬(t.head? = some 'x') := by
    cases t with
    | nil => simp
    | cons c1 t1 =>
      simp only [List.head?_cons, Option.some.injEq]
      intro hx
      have hc1 := h c1 (by rw [he]; exact List.mem_cons_of_mem _ (List.mem_cons_self _ _))
      rw [hx] at hc1
      exact absurd hc1 (by decide)
  have htX : ¬(t.head? = some 'X') := by
    cases t with
    | nil => simp
    | cons c1 t1 =>
      simp only [List.head?_cons, Option.some.injEq]
      intro hx
      have hc1 := h c1 (by rw [he]; exact List.mem_cons_of_mem _ (List.mem_cons_self _ _))
      rw [hx] at hc1
      exact absurd hc1 (by decide)
  simp only [jsParseInt]
  rw [hdw, he]
  simp only [List.head?_cons, Option.some.injEq, List.tail_cons]
  rw [if_neg hm]
  rw [if_neg (show ¬(c0 = '-' ∨ c0 = '+') from fun hor => hor.elim hm hp)]
  simp only [List.head?_cons, Option.some.injEq, List.tail_cons]
  rw [if_neg (show ¬(c0 = '0' ∧ (t.head? = some 'x' ∨ t.head? = some 'X')) from
    fun hand => hand.2.elim htx htX)]
  rw [← he, htw]
  rw [if_neg (by simpa using h0)]
  simp

/-- JavaScript `parseInt` yields `NaN` when the first character is
neither a digit nor a sign. -/
theorem jsParseInt_none_of_head {c0 : Char} {t : List Char} (s : String)
    (he : s.data = c0 :: t) (hd : isDigitCh c0 = false) (hm : c0 ≠ '-')
    (hp : c0 ≠ '+') (hw : isJsWS c0 = false) : jsParseInt s = none := by
  have hz : c0 ≠ '0' := fun hx =>
    (by decide : isDigitCh '0' ≠ false) (hx ▸ hd)
  simp only [jsParseInt, he, List.dropWhile_cons]
  rw [if_neg (show ¬(isJsWS c0 = true) by simp [hw])]
  simp only [List.head?_cons, Option.some.injEq, List.tail_cons]
  rw [if_neg hm]
  rw [if_neg (show ¬(c0 = '-' ∨ c0 = '+') from fun hor => hor.elim hm hp)]
  simp only [List.head?_cons, Option.some.injEq, List.tail_cons]
  rw [if_neg (show ¬(c0 = '0' ∧ (t.head? = some 'x' ∨ t.head? = some 'X')) from
    fun hand => hz hand.1)]
  rw [List.takeWhile_cons, if_neg (show ¬(isDigitCh c0 = true) from by simp [hd])]
  simp

/-- C4 counterexample.  The claim maps every token that is not a
positive integer (and not `all`/`everything`) to list mode
(`index = null`), but JavaScript `parseInt` accepts a leading-digit
prefix: the invalid token `3abc` parses as position 3 (0-based 2)
instead of list mode. -/
theorem c4_parse_forget_counterexample :
    parseForgetCommand "jibot forget <@U123> 3abc" =
      some { userId := "U123", index := some 2 } := by
  decide

/-- C4 (amended).  `parseForgetCommand` on `jibot forget <@U> ARG` (with
`U` nonempty alphanumeric and `ARG` a nonempty token without whitespace
or line terminators) maps `all`/`everything` (case-insensitively) to the
clear-all selector `-1`; maps an all-digit token of value `n ≥ 1` to
0-based `n - 1`; and falls back silently to list mode (`index = none`)
for a token that starts with neither a digit nor a sign — but a token
with a leading digit is handed to `parseInt`, which is where the
original claim fails. -/
theorem c4_parse_forget_arg_mapping (u arg : String) (hu0 : u.data ≠ [])
    (hu : ∀ c ∈ u.data, isIdChar c = true) (ha0 : arg.data ≠ [])
    (haw : ∀ c ∈ arg.data, isJsWS c = false)
    (hal : ∀ c ∈ arg.data, isLineTerm c = false) :
    (jsToLower arg = "all" ∨ jsToLower arg = "everything" →
      parseForgetCommand ("jibot forget <@" ++ u ++ "> " ++ arg) =
        some { userId := u, index := some (-1) }) ∧
    ((∀ c ∈ arg.data, isDigitCh c = true) → 1 ≤ digitsVal arg.data →
      parseForgetCommand ("jibot forget <@" ++ u ++ "> " ++ arg) =
        some { userId := u, index := some ((digitsVal arg.data : Nat) - 1 : Int) }) ∧
    (∀ c0 t, arg.data = c0 :: t → isDigitCh c0 = false → c0 ≠ '-' → c0 ≠ '+' →
      jsToLower arg ≠ "all" → jsToLower arg ≠ "everything" →
      parseForgetCommand ("jibot forget <@" ++ u ++ "> " ++ arg) =
        some { userId := u, index := none }) := by
  have hshape := parseForget_shape u arg hu0 hu ha0 haw hal
  refine ⟨?_, ?_, ?_⟩
  · intro hla
    rw [hshape]
    rcases hla with h | h
    · rw [h]
      simp [forgetIndexOfArg]
    · rw [h]
      simp [forgetIndexOfArg]
  · intro hdig hge
    rw [hshape, jsToLower_eq_self_of_digits arg hdig]
    unfold forgetIndexOfArg
    rw [if_neg (show ¬(arg = "") from fun hx => ha0 (by rw [hx]))]
    rw [if_neg (show ¬(arg = "all" ∨ arg = "everything") from fun hor => hor.elim
      (fun hx => absurd (hdig 'a' (by rw [hx]; decide)) (by decide))
      (fun hx => absurd (hdig 'v' (by rw [hx]; decide)) (by decide)))]
    simp only [jsParseInt_digits arg ha0 hdig]
    rw [if_pos (show (1 : Int) ≤ ((digitsVal arg.data : Nat) : Int) from by
      exact_mod_cast hge)]
  · intro c0 t he hd hm hp hnall hnev
    have hlargdata : (jsToLower arg).data = jsToLowerChar c0 :: t.map jsToLowerChar := by
      simp [jsToLower, he]
    rw [hshape]
    unfold forgetIndexOfArg
    rw [if_neg (show ¬(jsToLower arg = "") from fun hx => by
      rw [hx] at hlargdata
      exact absurd hlargdata (by simp))]
    rw [if_neg (show ¬(jsToLower arg = "all" ∨ jsToLower arg = "everything") from
      fun hor => hor.elim hnall hnev)]
    rw [jsParseInt_none_of_head (jsToLower arg) hlargdata
      (isDigitCh_jsToLowerChar hd)
      (jsToLowerChar_ne_of_low (by decide) hm)
      (jsToLowerChar_ne_of_low (by decide) hp)
      (isJsWS_jsToLowerChar (haw c0 (by rw [he]; exact List.mem_cons_self _ _)))]

/-- C4 witness: the amended mapping at the concrete tokens `ALL`, `12`
and `xyz`. -/
theorem c4_parse_forget_arg_mapping_witness :
    parseForgetCommand "jibot forget <@U123> ALL" =
      some { userId := "U123", index := some (-1) } ∧
    parseForgetCommand "jibot forget <@U123> 12" =
      some { userId := "U123", index := some 11 } ∧
    parseForgetCommand "jibot forget <@U123> xyz" =
      some { userId := "U123", index := none } := by
  refine ⟨?_, ?_, ?_⟩
  · exact (c4_parse_forget_arg_mapping "U123" "ALL" (by decide) (by decide) (by decide)
      (by decide) (by decide)).1 (by decide)
  · exact (c4_parse_forget_arg_mapping "U123" "12" (by decide) (by decide) (by decide)
      (by decide) (by decide)).2.1 (by decide) (by decide)
  · exact (c4_parse_forget_arg_mapping "U123" "xyz" (by decide) (by decide) (by decide)
      (by decide) (by decide)).2.2 'x' ['y', 'z'] (by decide) (by decide) (by decide)
      (by decide) (by decide) (by decide)

/- ======================================================================
   Identity store (mud.ts auth section): AuthStore, tiers, the
   setowner slash-command branch, promote/demote.
   ====================================================================== -/

structure AdminIdentity where
  displayName : Option String := none
  tier : String := "admin"
  linkedIds : List String
deriving DecidableEq, Repr

structure AuthStore where
  owner : String
  ownerLinkedIds : List String
  admins : List (String × AdminIdentity)
deriving DecidableEq, Repr

inductive Tier where
  | owner | admin | guest
deriving DecidableEq, Repr

/-- `isOwnerConfigured`: `!!store.owner` (the empty string is falsy). -/
def isOwnerConfigured (s : AuthStore) : Bool := s.owner ≠ ""

/-- `setOwner`: unconditionally records the owner. -/
def setOwner (userId : String) (s : AuthStore) : AuthStore := { s with owner := userId }

/-- `getTier`: owner (canonical or linked id) beats admin (canonical or
linked id) beats guest; the source's `for ... of Object.entries` loop
returning on the first hit is the existential `any`. -/
def getTier (userId : String) (s : AuthStore) : Tier :=
  if userId == s.owner || s.ownerLinkedIds.contains userId then .owner
  else if s.admins.any (fun e => e.1 == userId || e.2.linkedIds.contains userId) then .admin
  else .guest

/-- `demoteAdmin`: deletes the record only when the argument is the
canonical id (`store.admins[canonicalId]`). -/
def demoteAdmin (canonicalId : String) (s : AuthStore) : Bool × AuthStore :=
  match alFind? s.admins canonicalId with
  | none => (false, s)
  | some _ => (true, { s with admins := alDel s.admins canonicalId })

/-- The `/jibot setowner` branch: reject when an owner is configured,
otherwise record the caller. -/
def setownerBranch (userId : String) (s : AuthStore) : String × AuthStore :=
  if isOwnerConfigured s then ("❌ Owner already configured.", s)
  else ("✅ You are now the owner of Jibot!", setOwner userId s)

/-- C6.  On a store with no owner configured, the first `setowner`
succeeds and records the caller; afterwards every invocation by any
user (the original claimant included) is rejected and leaves the store
unchanged.  (Slack user ids are nonempty, which the truthiness check
`!!store.owner` needs.) -/
theorem c6_setowner_first_claim_only (s : AuthStore) (u : String)
    (hfresh : s.owner = "") (hu : u ≠ "") :
    (setownerBranch u s).1 = "✅ You are now the owner of Jibot!" ∧
    (setownerBranch u s).2.owner = u ∧
    (∀ v, setownerBranch v (setownerBranch u s).2 =
      ("❌ Owner already configured.", (setownerBranch u s).2)) := by
  have hnc : isOwnerConfigured s = false := by
    simp [isOwnerConfigured, hfresh]
  have hfirst : setownerBranch u s = ("✅ You are now the owner of Jibot!", setOwner u s) := by
    simp [setownerBranch, hnc]
  refine ⟨by rw [hfirst], by rw [hfirst]; rfl, ?_⟩
  intro v
  rw [hfirst]
  have hc : isOwnerConfigured (setOwner u s) = true := by
    simp [isOwnerConfigured, setOwner, hu]
  simp [setownerBranch, hc]

/-- C6 witness at a fresh store. -/
theorem c6_setowner_first_claim_only_witness :
    (setownerBranch "U1" { owner := "", ownerLinkedIds := [], admins := [] }).2.owner = "U1" ∧
    setownerBranch "U1" (setownerBranch "U1"
        { owner := "", ownerLinkedIds := [], admins := [] }).2 =
      ("❌ Owner already configured.",
        (setownerBranch "U1" { owner := "", ownerLinkedIds := [], admins := [] }).2) := by
  have h := c6_setowner_first_claim_only
    { owner := "", ownerLinkedIds := [], admins := [] } "U1" (by decide) (by decide)
  exact ⟨h.2.1, h.2.2 "U1"⟩

/-- C10.  `demoteAdmin` succeeds only on the canonical id: for a linked
alternate id of an admin (not itself canonical, not the owner or an
owner alias) `getTier` still reports admin, but `demoteAdmin` returns
false and leaves the store unchanged; on the canonical id it removes
the record with all its linked ids, so the alternate id (unless linked
elsewhere) drops to guest. -/
theorem c10_demote_admin_canonical_only (s : AuthStore) (c l : String)
    (a : AdminIdentity) (hca : alFind? s.admins c = some a) (hl : l ∈ a.linkedIds)
    (hlnc : alFind? s.admins l = none) (hlo : l ≠ s.owner)
    (hll : l ∉ s.ownerLinkedIds) :
    getTier l s = .admin ∧
    demoteAdmin l s = (false, s) ∧
    (demoteAdmin c s).1 = true ∧
    alFind? (demoteAdmin c s).2.admins c = none ∧
    ((∀ e ∈ s.admins, e.1 ≠ c → l ∉ e.2.linkedIds) →
      getTier l (demoteAdmin c s).2 = .guest) := by
  have howner : (l == s.owner || s.ownerLinkedIds.contains l) = false := by
    simp only [Bool.or_eq_false_iff, beq_eq_false_iff_ne, ne_eq]
    exact ⟨hlo, by simpa using hll⟩
  refine ⟨?_, ?_, ?_, ?_, ?_⟩
  · unfold getTier
    rw [howner]
    simp only [Bool.false_eq_true, if_false]
    rw [if_pos ?hadm]
    case hadm =>
      rw [List.any_eq_true]
      refine ⟨(c, a), alFind?_some_mem hca, ?_⟩
      simp [hl]
  · unfold demoteAdmin
    rw [hlnc]
  · unfold demoteAdmin
    rw [hca]
  · unfold demoteAdmin
    rw [hca]
    exact alFind?_del_self _ _
  · intro hother
    unfold demoteAdmin getTier
    rw [hca]
    simp only
    rw [howner]
    simp only [Bool.false_eq_true, if_false]
    rw [if_neg ?hnone]
    case hnone =>
      rw [List.any_eq_true]
      rintro ⟨e, he, hhit⟩
      have hmem := mem_alDel he
      simp only [Bool.or_eq_true, beq_iff_eq] at hhit
      rcases hhit with rfl | hin
      · exact (alFind?_eq_none_iff.mp hlnc e hmem.1) rfl
      · exact hother e hmem.1 hmem.2 (by simpa using hin)

/-- C10 witness: one admin `A` with alternate id `L`. -/
theorem c10_demote_admin_canonical_only_witness :
    getTier "L" (AuthStore.mk "O" [] [("A", AdminIdentity.mk none "admin" ["L"])]) = .admin ∧
    demoteAdmin "L" (AuthStore.mk "O" [] [("A", AdminIdentity.mk none "admin" ["L"])]) =
      (false, AuthStore.mk "O" [] [("A", AdminIdentity.mk none "admin" ["L"])]) ∧
    getTier "L" (demoteAdmin "A"
      (AuthStore.mk "O" [] [("A", AdminIdentity.mk none "admin" ["L"])])).2 = .guest := by
  have h := c10_demote_admin_canonical_only
    (AuthStore.mk "O" [] [("A", AdminIdentity.mk none "admin" ["L"])])
    "A" "L" (AdminIdentity.mk none "admin" ["L"]) (by decide) (by decide) (by decide)
    (by decide) (by decide)
  exact ⟨h.1, h.2.1, h.2.2.2.2 (by decide)⟩

/- ======================================================================
   Boolean regex tests (parse.ts `parseCommand`): a Brzozowski
   derivative matcher; each `.test(...)` probe of the source becomes a
   literal transcription of its pattern (the `i` flag is the
   case-insensitive character comparison, `$` inside a trailing
   `(?:\?|$)` group is expanded into the two alternatives).
   ====================================================================== -/

inductive RE where
  | emp
  | eps
  | cls (p : Char → Bool)
  | seq (a b : RE)
  | alt (a b : RE)
  | star (a : RE)

def mkSeq : RE → RE → RE
  | .emp, _ => .emp
  | _, .emp => .emp
  | .eps, b => b
  | a, .eps => a
  | a, b => .seq a b

def mkAlt : RE → RE → RE
  | .emp, b => b
  | a, .emp => a
  | a, b => .alt a b

def nullable : RE → Bool
  | .emp => false
  | .eps => true
  | .cls _ => false
  | .seq a b => nullable a && nullable b
  | .alt a b => nullable a || nullable b
  | .star _ => true

def rderiv : RE → Char → RE
  | .emp, _ => .emp
  | .eps, _ => .emp
  | .cls p, c => if p c then .eps else .emp
  | .seq a b, c =>
    if nullable a then mkAlt (mkSeq (rderiv a c) b) (rderiv b c)
    else mkSeq (rderiv a c) b
  | .alt a b, c => mkAlt (rderiv a c) (rderiv b c)
  | .star a, c => mkSeq (rderiv a c) (.star a)

def matchChars : RE → List Char → Bool
  | r, [] => nullable r
  | r, c :: cs => matchChars (rderiv r c) cs

def anyCh : RE := .cls (fun _ => true)

/-- `re.test(s)`: some substring matches. -/
def reSearch (r : RE) (s : String) : Bool :=
  matchChars (.seq (.star anyCh) (.seq r (.star anyCh))) s.data

/-- A match ending exactly at the end of the string (for a `$` inside
the pattern's final group). -/
def reSearchEnd (r : RE) (s : String) : Bool :=
  matchChars (.seq (.star anyCh) r) s.data

def chCI (c : Char) : RE := .cls (fun x => jsToLowerChar x == jsToLowerChar c)

def lit (s : String) : RE := s.data.foldr (fun c acc => .seq (chCI c) acc) .eps

def wsC : RE := .cls isJsWS
def ws1 : RE := .seq wsC (.star wsC)
def dotC : RE := .cls (fun c => !(isLineTerm c))
def dotPlus : RE := .seq dotC (.star dotC)
def reOpt (r : RE) : RE := .alt r .eps
def cats (l : List RE) : RE := l.foldr .seq .eps
def alts (l : List RE) : RE := l.foldr .alt .emp

/-- A pattern `PRE(.+?)(?:\?|$)`: either `PRE` then a nonempty capture
then a literal question mark somewhere, or `PRE` then a nonempty
capture reaching the end of the string. -/
def qTest (pre : RE) (s : String) : Bool :=
  reSearch (.seq pre (.seq dotPlus (chCI '?'))) s || reSearchEnd (.seq pre dotPlus) s

/- The probes of parseCommand, in source order. -/

def helpTest (s : String) : Bool :=
  reSearch (cats [lit "what", ws1, lit "can", ws1, lit "you", ws1, lit "do"]) s ||
  reSearch (lit "help") s

def inboxRe1 : RE :=
  .seq (reOpt (cats [lit "what", .alt (lit "'s") (.seq ws1 (lit "is")), ws1,
    reOpt (.seq (lit "in") ws1), lit "my", ws1]))
    (.alt (lit "inbox") (.seq (lit "reminder") (reOpt (lit "s"))))

def inboxTest (s : String) : Bool :=
  reSearch inboxRe1 s ||
  reSearch (cats [.alt (lit "show") (lit "list"), ws1, reOpt (.seq (lit "my") ws1),
    .alt (lit "inbox") (.seq (lit "reminder") (reOpt (lit "s")))]) s ||
  reSearch (cats [lit "my", ws1, lit "inbox"]) s

def calRe1 : RE :=
  cats [alts [lit "calendar", lit "schedule", lit "meeting",
      .seq (lit "event") (reOpt (lit "s"))],
    ws1, reOpt (.seq (lit "for") ws1),
    alts [lit "today", lit "tomorrow", cats [lit "this", ws1, lit "week"],
      cats [lit "next", ws1, lit "week"]]]

def calRe2 : RE :=
  cats [lit "what", .alt (lit "'s") (.seq ws1 (lit "is")), ws1,
    reOpt (.seq (lit "on") ws1), lit "my", ws1, .alt (lit "calendar") (lit "schedule")]

def calRe3 : RE :=
  cats [lit "my", ws1, .alt (lit "calendar") (lit "schedule"), ws1,
    reOpt (alts [lit "today", lit "tomorrow", cats [lit "this", ws1, lit "week"]])]

def calendarTest (s : String) : Bool :=
  reSearch calRe1 s || reSearch calRe2 s || reSearch calRe3 s

def emailRe1 : RE :=
  cats [.alt (.seq (lit "email") (reOpt (lit "s"))) (.seq (lit "message") (reOpt (lit "s"))),
    ws1, alts [lit "from", lit "about", lit "regarding"]]

def emailTest (s : String) : Bool :=
  reSearch emailRe1 s ||
  reSearch (cats [alts [lit "find", lit "search", lit "check"], ws1,
    reOpt (.seq (lit "my") ws1), .seq (lit "email") (reOpt (lit "s"))]) s ||
  reSearch (cats [lit "my", ws1, .seq (lit "email") (reOpt (lit "s"))]) s

def personTest (s : String) : Bool :=
  qTest (.seq (.alt (cats [lit "who", ws1, lit "is"]) (lit "who's")) ws1) s ||
  qTest (.seq (cats [lit "what", ws1, lit "do", ws1, .alt (lit "i") (lit "we"), ws1,
    lit "know", ws1, lit "about"]) ws1) s ||
  qTest (.seq (cats [lit "tell", ws1, lit "me", ws1, lit "about"]) ws1) s ||
  qTest (.seq (alts [lit "find", lit "lookup", cats [lit "look", ws1, lit "up"]])
    (.seq ws1 (reOpt (.seq (lit "person") ws1)))) s ||
  reSearch (cats [dotPlus, .alt (lit "'s") (lit "s'"), ws1,
    alts [lit "email", lit "contact", lit "info", lit "phone", lit "background"]]) s ||
  qTest (.seq (.alt (lit "email") (lit "contact"))
    (.seq ws1 (.seq (.alt (lit "for") (lit "of")) ws1))) s

def orgTest (s : String) : Bool :=
  qTest (cats [alts [lit "company", lit "org", lit "organization"], ws1,
    .alt (lit "called") (lit "named"), ws1]) s

def calendar2Test (s : String) : Bool :=
  reSearch calRe1 s || reSearch calRe2 s

def email2Test (s : String) : Bool :=
  reSearch emailRe1 s ||
  reSearch (cats [alts [lit "find", lit "search", lit "check"], ws1,
    reOpt (.seq (lit "my") ws1), .alt (.seq (lit "email") (reOpt (lit "s"))) (lit "inbox")]) s

def reminder2Test (s : String) : Bool :=
  reSearch inboxRe1 s ||
  reSearch (cats [.alt (lit "show") (lit "list"), ws1, reOpt (.seq (lit "my") ws1),
    .seq (lit "reminder") (reOpt (lit "s"))]) s

def remindActTest (s : String) : Bool :=
  reSearch (alts [cats [lit "remind", ws1, lit "me"],
    cats [lit "add", ws1, reOpt (.seq (lit "a") ws1), lit "reminder"],
    cats [lit "remember", ws1, lit "to"]]) s

def calActTest (s : String) : Bool :=
  reSearch (cats [alts [lit "schedule", lit "add", lit "create", lit "put"], ws1,
    reOpt (.seq (lit "a") ws1), alts [lit "meeting", lit "event", lit "appointment"]]) s ||
  reSearch (cats [.alt (lit "add") (lit "put"), ws1, .alt (lit "on") (lit "to"), ws1,
    reOpt (.seq (lit "my") ws1), lit "calendar"]) s

def noteActTest (s : String) : Bool :=
  reSearch (cats [alts [lit "create", lit "make", lit "write", lit "add"], ws1,
    reOpt (.seq (lit "a") ws1), lit "note"]) s

def idPlus : RE := .seq (.cls isIdChar) (.star (.cls isIdChar))
def wordPlus : RE := .seq (.cls isWordChar) (.star (.cls isWordChar))
def nonWsPlus : RE :=
  .seq (.cls (fun c => !(isJsWS c))) (.star (.cls (fun c => !(isJsWS c))))

/-- The first Slack-notify probe runs on the raw `text`, the second on
`lower`. -/
def notifySlackTest (text lower : String) : Bool :=
  reSearch (cats [alts [lit "tell", lit "message", lit "dm",
    cats [lit "send", ws1, reOpt (.seq (lit "a") ws1), lit "message", ws1, lit "to"]],
    ws1, lit "<@", idPlus, lit ">"]) text ||
  reSearch (cats [alts [lit "tell", lit "message", lit "notify"], ws1, lit "@", wordPlus]) lower

def notifyEmailTest (s : String) : Bool :=
  reSearch (cats [.alt (lit "email")
      (cats [lit "send", ws1, reOpt (.seq (.seq (lit "a") (reOpt (lit "n"))) ws1),
        lit "email", ws1, lit "to"]),
    ws1, nonWsPlus, lit "@", nonWsPlus]) s

theorem length_dropWhile_le (p : Char → Bool) (l : List Char) :
    (l.dropWhile p).length ≤ l.length := by
  induction l with
  | nil => simp
  | cons c t ih =>
    rw [List.dropWhile_cons]
    split
    · exact Nat.le_succ_of_le ih
    · simp

/-- JavaScript `text.split(/\s+/)`: delimiters are maximal whitespace
runs; a leading or trailing run contributes an empty segment.  A
whitespace character opens a new boundary only when the character after
it is not also whitespace (a run yields one boundary). -/
def splitWSAux : List Char → List (List Char)
  | [] => [[]]
  | c :: rest =>
    if isJsWS c then
      match rest with
      | [] => [[], []]
      | d :: _ => if isJsWS d then splitWSAux rest else [] :: splitWSAux rest
    else
      match splitWSAux rest with
      | s :: ss => (c :: s) :: ss
      | [] => [[c]]

def jsSplitWS (s : String) : List String := (splitWSAux s.data).map String.mk

inductive Intent where
  | unknown | lookup_person | lookup_org | lookup_calendar | lookup_email
  | lookup_reminder | action_remind | action_calendar | action_note
  | notify_slack | notify_email
deriving DecidableEq, Repr

/-- The intent assigned by `parseCommand` (the confidence and entity
extraction do not influence which branch fires and are not modelled). -/
def parseCommandIntent (text : String) : Intent :=
  let lower := jsTrimStr (jsToLower text)
  if helpTest lower then .unknown
  else if inboxTest lower then .lookup_reminder
  else if calendarTest lower then .lookup_calendar
  else if emailTest lower then .lookup_email
  else if personTest lower then .lookup_person
  else if orgTest lower then .lookup_org
  else if calendar2Test lower then .lookup_calendar
  else if email2Test lower then .lookup_email
  else if reminder2Test lower then .lookup_reminder
  else if remindActTest lower then .action_remind
  else if calActTest lower then .action_calendar
  else if noteActTest lower then .action_note
  else if notifySlackTest text lower then .notify_slack
  else if notifyEmailTest lower then .notify_email
  else if (jsSplitWS text).length ≤ 4 && !(text.data.contains '?') then .lookup_person
  else .unknown

/-- C8 counterexample.  The claim promises `lookup_calendar` for every
input matching a calendar phrase, but the help probe (`/help/i`) is
tested first: `help my schedule today` matches the calendar probe yet
is classified `unknown`. -/
theorem c8_intent_order_counterexample :
    calendarTest (jsTrimStr (jsToLower "help my schedule today")) = true ∧
    parseCommandIntent "help my schedule today" = Intent.unknown := by
  constructor <;> decide

/-- C8 (amended).  The narrow intents are tested before the generic
person-lookup patterns: an input matching a calendar probe that does not
also trigger the earlier help or inbox branches is classified
`lookup_calendar`, and no input matching the calendar, inbox or email
probes is ever classified `lookup_person`. -/
theorem c8_narrow_before_person (s : String) :
    (helpTest (jsTrimStr (jsToLower s)) = false →
      inboxTest (jsTrimStr (jsToLower s)) = false →
      calendarTest (jsTrimStr (jsToLower s)) = true →
      parseCommandIntent s = Intent.lookup_calendar) ∧
    (calendarTest (jsTrimStr (jsToLower s)) = true →
      parseCommandIntent s ≠ Intent.lookup_person) ∧
    (inboxTest (jsTrimStr (jsToLower s)) = true →
      parseCommandIntent s ≠ Intent.lookup_person) ∧
    (emailTest (jsTrimStr (jsToLower s)) = true →
      parseCommandIntent s ≠ Intent.lookup_person) := by
  refine ⟨?_, ?_, ?_, ?_⟩
  · intro h1 h2 h3
    simp [parseCommandIntent, h1, h2, h3]
  · intro h3
    by_cases h1 : helpTest (jsTrimStr (jsToLower s)) = true
    · simp [parseCommandIntent, h1]
    · by_cases h2 : inboxTest (jsTrimStr (jsToLower s)) = true
      · simp [parseCommandIntent, h1, h2]
      · simp [parseCommandIntent, h1, h2, h3]
  · intro h2
    by_cases h1 : helpTest (jsTrimStr (jsToLower s)) = true
    · simp [parseCommandIntent, h1]
    · simp [parseCommandIntent, h1, h2]
  · intro h4
    by_cases h1 : helpTest (jsTrimStr (jsToLower s)) = true
    · simp [parseCommandIntent, h1]
    · by_cases h2 : inboxTest (jsTrimStr (jsToLower s)) = true
      · simp [parseCommandIntent, h1, h2]
      · by_cases h3 : calendarTest (jsTrimStr (jsToLower s)) = true
        · simp [parseCommandIntent, h1, h2, h3]
        · simp [parseCommandIntent, h1, h2, h3, h4]

/-- C8 witness: the claim's own calendar phrase. -/
theorem c8_narrow_before_person_witness :
    parseCommandIntent "what is on my schedule" = Intent.lookup_calendar :=
  (c8_narrow_before_person "what is on my schedule").1 (by decide) (by decide) (by decide)

/- ======================================================================
   llm-parse.ts: JSON values, a model of JSON.parse, the brace-extract
   regex, the per-user conversation history, llmParse and
   processWithLLM.
   ====================================================================== -/

inductive Json where
  | null
  | bool (b : Bool)
  | num (raw : String)
  | str (s : String)
  | arr (xs : List Json)
  | obj (kvs : List (String × Json))
deriving Repr

/-- JSON whitespace (space, tab, line feed, carriage return). -/
def skipJsonWs (cs : List Char) : List Char :=
  cs.dropWhile (fun c => c = ' ' || c = '\t' || c = '\n' || c = '\r')

/-- The text of a JSON string literal after the opening quote; decodes
the escapes `JSON.parse` accepts and rejects raw control characters
(the fuel is the remaining input length). -/
def parseJsonStrAux : Nat → List Char → List Char → Option (String × List Char)
  | 0, _, _ => none
  | _ + 1, [], _ => none
  | fuel + 1, c :: r, acc =>
    if c = '"' then some (String.mk acc.reverse, r)
    else if c = '\\' then
      match r with
      | [] => none
      | e :: r2 =>
        if e = '"' then parseJsonStrAux fuel r2 ('"' :: acc)
        else if e = '\\' then parseJsonStrAux fuel r2 ('\\' :: acc)
        else if e = '/' then parseJsonStrAux fuel r2 ('/' :: acc)
        else if e = 'n' then parseJsonStrAux fuel r2 ('\n' :: acc)
        else if e = 't' then parseJsonStrAux fuel r2 ('\t' :: acc)
        else if e = 'r' then parseJsonStrAux fuel r2 ('\r' :: acc)
        else if e = 'b' then parseJsonStrAux fuel r2 ('\x08' :: acc)
        else if e = 'f' then parseJsonStrAux fuel r2 ('\x0c' :: acc)
        else if e = 'u' then
          match r2 with
          | h1 :: h2 :: h3 :: h4 :: r3 =>
            if isHexDigitCh h1 && isHexDigitCh h2 && isHexDigitCh h3 && isHexDigitCh h4 then
              parseJsonStrAux fuel r3 (Char.ofNat (4096 * hexDigitVal h1 + 256 * hexDigitVal h2 +
                16 * hexDigitVal h3 + hexDigitVal h4) :: acc)
            else none
          | _ => none
        else none
    else if c.toNat < 32 then none
    else parseJsonStrAux fuel r (c :: acc)

/-- A JSON number: `-?(0|[1-9][0-9]*)(\.[0-9]+)?([eE][+-]?[0-9]+)?`,
kept as its raw lexeme (the numeric value never matters here). -/
def parseJsonNum (cs : List Char) : Option (Json × List Char) :=
  let (sgn, cs1) : List Char × List Char :=
    match cs with
    | '-' :: r => (['-'], r)
    | r => ([], r)
  match cs1 with
  | '0' :: r =>
    let (frac, r2) : List Char × List Char :=
      match r with
      | '.' :: r' =>
        let ds := r'.takeWhile isDigitCh
        if ds = [] then (['!'], r) else ('.' :: ds, r'.dropWhile isDigitCh)
      | _ => ([], r)
    if frac = ['!'] then none
    else
      match r2 with
      | 'e' :: r' =>
        match (match r' with | '+' :: r'' => (['+'], r'') | '-' :: r'' => (['-'], r'') | r'' => ([], r'')) with
        | (es, r'') =>
          let ds := r''.takeWhile isDigitCh
          if ds = [] then none
          else some (.num (String.mk (sgn ++ '0' :: frac ++ 'e' :: es ++ ds)),
            r''.dropWhile isDigitCh)
      | 'E' :: r' =>
        match (match r' with | '+' :: r'' => (['+'], r'') | '-' :: r'' => (['-'], r'') | r'' => ([], r'')) with
        | (es, r'') =>
          let ds := r''.takeWhile isDigitCh
          if ds = [] then none
          else some (.num (String.mk (sgn ++ '0' :: frac ++ 'E' :: es ++ ds)),
            r''.dropWhile isDigitCh)
      | _ => some (.num (String.mk (sgn ++ '0' :: frac)), r2)
  | c :: r =>
    if isDigitCh c && !(c = '0') then
      let ip := c :: r.takeWhile isDigitCh
      let r1 := r.dropWhile isDigitCh
      let (frac, r2) : List Char × List Char :=
        match r1 with
        | '.' :: r' =>
          let ds := r'.takeWhile isDigitCh
          if ds = [] then (['!'], r1) else ('.' :: ds, r'.dropWhile isDigitCh)
        | _ => ([], r1)
      if frac = ['!'] then none
      else
        match r2 with
        | 'e' :: r' =>
          match (match r' with | '+' :: r'' => (['+'], r'') | '-' :: r'' => (['-'], r'') | r'' => ([], r'')) with
          | (es, r'') =>
            let ds := r''.takeWhile isDigitCh
            if ds = [] then none
            else some (.num (String.mk (sgn ++ ip ++ frac ++ 'e' :: es ++ ds)),
              r''.dropWhile isDigitCh)
        | 'E' :: r' =>
          match (match r' with | '+' :: r'' => (['+'], r'') | '-' :: r'' => (['-'], r'') | r'' => ([], r'')) with
          | (es, r'') =>
            let ds := r''.takeWhile isDigitCh
            if ds = [] then none
            else some (.num (String.mk (sgn ++ ip ++ frac ++ 'E' :: es ++ ds)),
              r''.dropWhile isDigitCh)
        | _ => some (.num (String.mk (sgn ++ ip ++ frac)), r2)
    else none
  | [] => none

mutual

def parseJsonVal : Nat → List Char → Option (Json × List Char)
  | 0, _ => none
  | fuel + 1, cs =>
    match skipJsonWs cs with
    | 'n' :: 'u' :: 'l' :: 'l' :: r => some (.null, r)
    | 't' :: 'r' :: 'u' :: 'e' :: r => some (.bool true, r)
    | 'f' :: 'a' :: 'l' :: 's' :: 'e' :: r => some (.bool false, r)
    | '"' :: r => (parseJsonStrAux (r.length + 1) r []).map (fun p => (.str p.1, p.2))
    | '[' :: r =>
      match skipJsonWs r with
      | ']' :: r2 => some (.arr [], r2)
      | r2 => (parseJsonElems fuel r2).map (fun p => (.arr p.1, p.2))
    | '{' :: r =>
      match skipJsonWs r with
      | '}' :: r2 => some (.obj [], r2)
      | r2 => (parseJsonMembers fuel r2).map (fun p => (.obj p.1, p.2))
    | cs2 => parseJsonNum cs2

def parseJsonElems : Nat → List Char → Option (List Json × List Char)
  | 0, _ => none
  | fuel + 1, cs => do
    let (v, r) ← parseJsonVal fuel cs
    match skipJsonWs r with
    | ',' :: r2 => (parseJsonElems fuel r2).map (fun p => (v :: p.1, p.2))
    | ']' :: r2 => some ([v], r2)
    | _ => none

def parseJsonMembers : Nat → List Char → Option (List (String × Json) × List Char)
  | 0, _ => none
  | fuel + 1, cs =>
    match skipJsonWs cs with
    | '"' :: r => do
      let (k, r2) ← parseJsonStrAux (r.length + 1) r []
      match skipJsonWs r2 with
      | ':' :: r3 => do
        let (v, r4) ← parseJsonVal fuel r3
        match skipJsonWs r4 with
        | ',' :: r5 => (parseJsonMembers fuel r5).map (fun p => ((k, v) :: p.1, p.2))
        | '}' :: r5 => some ([(k, v)], r5)
        | _ => none
      | _ => none
    | _ => none

end

/-- `JSON.parse`: a full parse of the string as one JSON value (the
fuel bounds the nesting depth, which is at most the input length). -/
def jsonParse (s : String) : Option Json :=
  match parseJsonVal (s.data.length + 1) s.data with
  | some (v, rest) => if skipJsonWs rest = [] then some v else none
  | none => none

/-- `text.match(/\{[\s\S]*\}/)`: from the first opening brace to the
last closing brace, when the latter comes after the former. -/
def jsonExtract (s : String) : Option String :=
  match s.data.findIdx? (fun c => c == '{'), s.data.reverse.findIdx? (fun c => c == '}') with
  | some i, some rj =>
    if i < s.data.length - 1 - rj then
      some (String.mk ((s.data.take (s.data.length - rj)).drop i))
    else none
  | _, _ => none

inductive MsgRole where
  | user | assistant
deriving DecidableEq, Repr

structure ConvMsg where
  role : MsgRole
  content : String
deriving DecidableEq, Repr

/-- The in-memory `conversationHistory: Map<string, ConversationMessage[]>`. -/
abbrev HistMap := List (String × List ConvMsg)

/-- The outcome of the Anthropic API call inside `llmParse`: `failure`
covers a network/API error and a non-text first content block (both
`throw` into the same `catch`), `success` carries the model's raw text
reply. -/
inductive ApiOutcome where
  | failure
  | success (text : String)

def MAX_HISTORY : Nat := 10

/-- `history.slice(-MAX_HISTORY)`. -/
def takeLast {α : Type} (n : Nat) (l : List α) : List α := l.drop (l.length - n)

def llmFallbackMsg : String :=
  "I had trouble understanding that. Try:\n• \"who is [name]?\"\n• \"what's on my calendar today?\"\n• \"emails from [person]\"\n• \"remind me to [task]\""

/-- The object returned by `llmParse`'s catch block. -/
def llmFallbackResult : Json :=
  .obj [("understanding", .str "Failed to parse request"),
    ("skills", .arr []),
    ("fallback_response", .str llmFallbackMsg)]

/-- `llmParse`.  The returned `Json` is the raw `JSON.parse` result:
the `as LLMParseResult` cast performs no key validation.  The
`history.push` mutates the array stored in the map in place, so a user
with an existing entry keeps the pushed user turn even on the error
path, while a first-time user's fresh local array is stored only by the
`conversationHistory.set` on the success path. -/
def llmParse (userInput userId : String) (outcome : ApiOutcome) (hist : HistMap) :
    Json × HistMap :=
  let h0 := (alFind? hist userId).getD []
  let h1 := h0 ++ [{ role := .user, content := userInput }]
  let histPushed := if (alFind? hist userId).isSome then alSet hist userId h1 else hist
  let h2 := if MAX_HISTORY < h1.length then takeLast MAX_HISTORY h1 else h1
  match outcome with
  | .failure => (llmFallbackResult, histPushed)
  | .success replyText =>
    let t := jsTrimStr replyText
    match jsonExtract t with
    | none => (llmFallbackResult, histPushed)
    | some m =>
      match jsonParse m with
      | none => (llmFallbackResult, histPushed)
      | some j =>
        (j, alSet histPushed userId (h2 ++ [{ role := .assistant, content := t }]))

/-- JavaScript property access `obj[k]` (`none` is `undefined`). -/
def jsGet (j : Json) (k : String) : Option Json :=
  match j with
  | .obj kvs => alFind? kvs k
  | _ => none

/-- `processWithLLM`.  Accessing `parsed.skills.map`/`.length` throws a
`TypeError` when `skills` is missing or not an array; with an empty
skills list the fixed `fallback_response` field is returned (undefined
when absent).  Skill execution and response synthesis are external
effects whose combined text is the `synthRes` parameter. -/
def processWithLLM (userInput userId : String) (outcome : ApiOutcome) (hist : HistMap)
    (synthRes : String) : Except String (Option Json) × HistMap :=
  let r := llmParse userInput userId outcome hist
  match jsGet r.1 "skills" with
  | some (.arr skills) =>
    if skills.length = 0 then (.ok (jsGet r.1 "fallback_response"), r.2)
    else (.ok (some (.str synthRes)), r.2)
  | _ => (.error "TypeError: cannot read parsed.skills", r.2)

/-- C2 counterexample.  The claim also covers "parsed JSON missing the
required keys", but `llmParse` returns the parsed object without
validating keys, and `processWithLLM` then crashes reading
`parsed.skills`: a well-formed reply that is JSON without a `skills`
key makes `processWithLLM` throw instead of returning the fallback. -/
theorem c2_llm_fallback_counterexample :
    (processWithLLM "hi" "U1" (.success "\x7b\"understanding\":\"u\"\x7d") [] "").1 =
      .error "TypeError: cannot read parsed.skills" := rfl

/-- C2 (amended).  On a network/API failure, on a reply with no
extractable JSON object, and on a reply whose extracted braces fail
`JSON.parse`, `llmParse` returns the static fallback and
`processWithLLM` returns its fixed `fallback_response` text without
throwing; a parsed object missing the required keys, however, is passed
through unvalidated (the counterexample). -/
theorem c2_llm_fallback (userInput userId : String) (hist : HistMap) (synthRes : String) :
    ((processWithLLM userInput userId .failure hist synthRes).1 =
      .ok (some (.str llmFallbackMsg))) ∧
    (∀ t, jsonExtract (jsTrimStr t) = none →
      (processWithLLM userInput userId (.success t) hist synthRes).1 =
        .ok (some (.str llmFallbackMsg))) ∧
    (∀ t m, jsonExtract (jsTrimStr t) = some m → jsonParse m = none →
      (processWithLLM userInput userId (.success t) hist synthRes).1 =
        .ok (some (.str llmFallbackMsg))) := by
  refine ⟨rfl, ?_, ?_⟩
  · intro t ht
    simp only [processWithLLM, llmParse, ht]
    rfl
  · intro t m ht hm
    simp only [processWithLLM, llmParse, ht, hm]
    rfl

/-- C2 witness: the amended fallback behaviour at concrete inputs. -/
theorem c2_llm_fallback_witness :
    (processWithLLM "hi" "U1" .failure [] "").1 = .ok (some (.str llmFallbackMsg)) ∧
    (processWithLLM "hi" "U1" (.success "no json here") [] "").1 =
      .ok (some (.str llmFallbackMsg)) :=
  ⟨(c2_llm_fallback "hi" "U1" [] "").1,
   (c2_llm_fallback "hi" "U1" [] "").2.1 "no json here" rfl⟩

/-- C9 counterexample.  For a first-time user (no entry in the
conversation map), a malformed reply returns the fallback but the
user's original turn is NOT recorded: the map is still empty, because
`conversationHistory.set` only runs on the success path and the
in-place push only mutates an array already stored in the map. -/
theorem c9_history_counterexample :
    (processWithLLM "hello" "U1" (.success "oops") [] "").2 = ([] : HistMap) ∧
    (processWithLLM "hello" "U1" (.success "oops") [] "").1 =
      .ok (some (.str llmFallbackMsg)) :=
  ⟨rfl, rfl⟩

/-- C9 (amended).  When the model's reply contains no parseable JSON
object, `processWithLLM` returns the fixed fallback string verbatim,
and for a user who already has recorded conversation history the
original user turn is appended to it in place; a first-time user's turn
is lost (the counterexample). -/
theorem c9_malformed_reply_fallback_history (userInput userId t : String)
    (hist : HistMap) (synthRes : String) (h0 : List ConvMsg)
    (hh : alFind? hist userId = some h0)
    (hx : jsonExtract (jsTrimStr t) = none) :
    (processWithLLM userInput userId (.success t) hist synthRes).1 =
      .ok (some (.str llmFallbackMsg)) ∧
    alFind? (processWithLLM userInput userId (.success t) hist synthRes).2 userId =
      some (h0 ++ [{ role := .user, content := userInput }]) := by
  constructor
  · simp only [processWithLLM, llmParse, hx]
    rfl
  · simp only [processWithLLM, llmParse, hx, hh, Option.getD_some, Option.isSome_some,
      if_true]
    exact alFind?_set_self _ _ _

/-- C9 witness: a user with one earlier exchange keeps it plus the new
user turn when the reply is malformed. -/
theorem c9_malformed_reply_fallback_history_witness :
    (processWithLLM "hi" "U1" (.success "oops")
      [("U1", [⟨.user, "earlier"⟩, ⟨.assistant, "reply"⟩])] "").1 =
      .ok (some (.str llmFallbackMsg)) ∧
    alFind? (processWithLLM "hi" "U1" (.success "oops")
      [("U1", [⟨.user, "earlier"⟩, ⟨.assistant, "reply"⟩])] "").2 "U1" =
      some [⟨.user, "earlier"⟩, ⟨.assistant, "reply"⟩, ⟨.user, "hi"⟩] := by
  have h := c9_malformed_reply_fallback_history "hi" "U1" "oops"
    [("U1", [⟨.user, "earlier"⟩, ⟨.assistant, "reply"⟩])] ""
    [⟨.user, "earlier"⟩, ⟨.assistant, "reply"⟩] (by decide) rfl
  exact ⟨h.1, h.2⟩
